import Mathlib

/-!
Shallow embedding of the DSS storage core (cockroach Store, geo coverer,
entity model) of the InterUSS platform, together with theorems checking the
specification's claims about it.

Conventions of the embedding:
* timestamps are `Int` values counting nanoseconds since the Unix epoch
  (`time.Time.UnixNano`);
* SQL tables are lists of row structures, transactions are explicit state
  passing over `DBState`, and fallible operations return `Except Err` or
  `Option`;
* machine-integer casts are explicit (`uint64OfInt64`, `int64OfUint64`
  model Go's `uint64(int64)` and `int64(uint64)` conversions).
-/

namespace InterUSS

/-- Error kinds surfaced by the store (dsserr / plain errors in the source). -/
inductive Err where
  | alreadyExists
  | notFound
  | versionMismatch
  | badRequest
  | internal
deriving DecidableEq, Repr

/-! ### Version strings

`versionBase = 32`, `timestampToVersionString` and `versionStringToTimestamp`
embed the source's `strconv.FormatUint(uint64(t.UnixNano()), 32)` and
`strconv.ParseUint(s, 32, 64)` followed by `time.Unix(0, int64(nanos))`.
The digit alphabet of Go's strconv is `0123456789abcdefghijklmnopqrstuvwxyz`.
-/

/-- `versionBase` from the source: the base used for version strings. -/
def versionBase : Nat := 32

/-- The digit characters used by Go's strconv for values below 36:
digits below 10 map to `0`-`9`, the rest to lowercase letters. -/
def digitChar32 (d : Nat) : Char :=
  if d < 10 then Char.ofNat (48 + d) else Char.ofNat (87 + d)

/-- Digit value accepted by `strconv.ParseUint`: decimal digits, lowercase
letters, uppercase letters; anything else is a syntax error (`none`). -/
def digitVal32 (c : Char) : Option Nat :=
  if 48 ≤ c.toNat ∧ c.toNat ≤ 57 then some (c.toNat - 48)
  else if 97 ≤ c.toNat ∧ c.toNat ≤ 122 then some (c.toNat - 87)
  else if 65 ≤ c.toNat ∧ c.toNat ≤ 90 then some (c.toNat - 55)
  else none

/-- Fuel-driven digit loop for base 32 (structural recursion so that concrete
values reduce); `toDigits32` supplies enough fuel. -/
def toDigits32Go (fuel n : Nat) : List Nat :=
  match fuel with
  | 0 => []
  | fuel + 1 => if n < 32 then [n] else toDigits32Go fuel (n / 32) ++ [n % 32]

/-- Base-32 digits of `n`, most significant first (the digit loop of
`strconv.FormatUint` for base 32). -/
def toDigits32 (n : Nat) : List Nat :=
  toDigits32Go (n + 1) n

/-- Fuel-driven digit loop for base 10; `toDigits10` supplies enough fuel. -/
def toDigits10Go (fuel n : Nat) : List Nat :=
  match fuel with
  | 0 => []
  | fuel + 1 => if n < 10 then [n] else toDigits10Go fuel (n / 10) ++ [n % 10]

/-- Base-10 digits of `n`, most significant first (the digit loop of
`strconv.FormatInt` / `FormatUint` for base 10). -/
def toDigits10 (n : Nat) : List Nat :=
  toDigits10Go (n + 1) n

theorem toDigits32Go_fuel_irrel :
    ∀ f1 f2 n : Nat, n < f1 → n < f2 → toDigits32Go f1 n = toDigits32Go f2 n := by
  intro f1
  induction f1 with
  | zero => intro f2 n h1 _; omega
  | succ g1 ih =>
    intro f2 n h1 h2
    match f2, h2 with
    | g2 + 1, h2 =>
      simp only [toDigits32Go]
      by_cases hn : n < 32
      · rw [if_pos hn, if_pos hn]
      · rw [if_neg hn, if_neg hn]
        have hd : n / 32 < n := Nat.div_lt_self (by omega) (by omega)
        rw [ih g2 (n / 32) (by omega) (by omega)]

/-- The recursive unfolding of `toDigits32`. -/
theorem toDigits32_eq (n : Nat) :
    toDigits32 n = if n < 32 then [n] else toDigits32 (n / 32) ++ [n % 32] := by
  by_cases hn : n < 32
  · rw [if_pos hn]
    show toDigits32Go (n + 1) n = [n]
    simp only [toDigits32Go, if_pos hn]
  · rw [if_neg hn]
    have hd : n / 32 < n := Nat.div_lt_self (by omega) (by omega)
    have h1 : toDigits32Go (n + 1) n = toDigits32Go n (n / 32) ++ [n % 32] := by
      simp only [toDigits32Go, if_neg hn]
    have h2 : toDigits32Go n (n / 32) = toDigits32Go (n / 32 + 1) (n / 32) :=
      toDigits32Go_fuel_irrel n (n / 32 + 1) (n / 32) (by omega) (by omega)
    show toDigits32Go (n + 1) n = toDigits32Go (n / 32 + 1) (n / 32) ++ [n % 32]
    rw [h1, h2]

/-- Recombine most-significant-first base-32 digits into a number. -/
def ofDigits32 (ds : List Nat) : Nat :=
  ds.foldl (fun a d => a * 32 + d) 0

/-- `strconv.FormatUint(n, 32)`. -/
def formatUint32 (n : Nat) : String :=
  String.mk ((toDigits32 n).map digitChar32)

/-- `strconv.FormatInt(t, 10)` on an `int64`: optional minus sign followed
by the decimal digits of the absolute value. -/
def formatInt10 (t : Int) : String :=
  if t < 0 then "-" ++ String.mk ((toDigits10 (-t).toNat).map digitChar32)
  else String.mk ((toDigits10 t.toNat).map digitChar32)

/-- The per-character loop of `strconv.ParseUint` for base 32: each character
must be a digit of value below the base. -/
def parseChars32 : List Char → Option (List Nat)
  | [] => some []
  | c :: cs =>
    match digitVal32 c with
    | none => none
    | some d => if d < 32 then (parseChars32 cs).map (fun ds => d :: ds) else none

/-- `strconv.ParseUint(s, 32, 64)`: rejects the empty string, any non-digit
character, and any value exceeding the unsigned 64-bit range.  (strconv's
incremental overflow check fires exactly when the final value would
overflow, since the accumulated value only grows.) -/
def parseUint32 (s : String) : Option Nat :=
  if s.data.isEmpty then none
  else
    match parseChars32 s.data with
    | none => none
    | some ds => if ofDigits32 ds < 2 ^ 64 then some (ofDigits32 ds) else none

/-- Go's `uint64(t)` on an `int64` value: reduction modulo `2^64`. -/
def uint64OfInt64 (t : Int) : Nat :=
  (t % (2 ^ 64 : Int)).toNat

/-- Go's `int64(n)` on a `uint64` value: two's-complement reinterpretation. -/
def int64OfUint64 (n : Nat) : Int :=
  if n < 2 ^ 63 then (n : Int) else (n : Int) - 2 ^ 64

/-- `timestampToVersionString` from the source, at the level of the
timestamp's `UnixNano` value: `strconv.FormatUint(uint64(t.UnixNano()), versionBase)`. -/
def timestampToVersionString (t : Int) : String :=
  formatUint32 (uint64OfInt64 t)

/-- `versionStringToTimestamp` from the source, returning the `UnixNano`
value of the decoded `time.Unix(0, int64(nanos))`:
`strconv.ParseUint(s, versionBase, 64)` then the signed reinterpretation. -/
def versionStringToTimestamp (s : String) : Option Int :=
  (parseUint32 s).map int64OfUint64

theorem toDigits32_ne_nil (n : Nat) : toDigits32 n ≠ [] := by
  rw [toDigits32_eq]
  split
  · simp
  · simp

theorem mem_toDigits32_lt (n : Nat) : ∀ d ∈ toDigits32 n, d < 32 := by
  induction n using Nat.strong_induction_on with
  | _ n ih =>
    intro d hd
    rw [toDigits32_eq] at hd
    split at hd
    next h => simp at hd; omega
    next h =>
      rcases List.mem_append.1 hd with h1 | h2
      · exact ih (n / 32) (Nat.div_lt_self (by omega) (by omega)) d h1
      · simp at h2; omega

theorem ofDigits32_append (ds : List Nat) (d : Nat) :
    ofDigits32 (ds ++ [d]) = ofDigits32 ds * 32 + d := by
  simp [ofDigits32, List.foldl_append]

theorem ofDigits32_toDigits32 (n : Nat) : ofDigits32 (toDigits32 n) = n := by
  induction n using Nat.strong_induction_on with
  | _ n ih =>
    rw [toDigits32_eq]
    split
    next h => simp [ofDigits32]
    next h =>
      rw [ofDigits32_append, ih (n / 32) (Nat.div_lt_self (by omega) (by omega))]
      omega

theorem digitVal32_digitChar32 : ∀ d : Nat, d < 32 → digitVal32 (digitChar32 d) = some d := by
  decide

theorem parseChars32_map_digitChar32 :
    ∀ ds : List Nat, (∀ d ∈ ds, d < 32) → parseChars32 (ds.map digitChar32) = some ds := by
  intro ds
  induction ds with
  | nil => intro _; rfl
  | cons d rest ih =>
    intro h
    have hd : d < 32 := h d (by simp)
    have hrest : ∀ x ∈ rest, x < 32 := fun x hx => h x (by simp [hx])
    simp only [List.map_cons, parseChars32, digitVal32_digitChar32 d hd, if_pos hd, ih hrest]
    rfl

theorem parseUint32_formatUint32 (n : Nat) (h : n < 2 ^ 64) :
    parseUint32 (formatUint32 n) = some n := by
  unfold parseUint32 formatUint32
  have hne : (toDigits32 n).map digitChar32 ≠ [] := by
    simpa using toDigits32_ne_nil n
  rw [if_neg (by simpa [List.isEmpty_iff] using hne)]
  rw [show (String.mk ((toDigits32 n).map digitChar32)).data = (toDigits32 n).map digitChar32 from rfl]
  rw [parseChars32_map_digitChar32 _ (mem_toDigits32_lt n)]
  simp only [ofDigits32_toDigits32]
  rw [if_pos h]

/-- Helper: decoding inverts encoding on every `int64`-representable
nanosecond timestamp. -/
theorem versionString_roundtrip_aux (t : Int) (h1 : -(2 ^ 63) ≤ t) (h2 : t < 2 ^ 63) :
    versionStringToTimestamp (timestampToVersionString t) = some t := by
  unfold versionStringToTimestamp timestampToVersionString
  have hlt : uint64OfInt64 t < 2 ^ 64 := by
    unfold uint64OfInt64
    omega
  rw [parseUint32_formatUint32 _ hlt]
  have : int64OfUint64 (uint64OfInt64 t) = t := by
    unfold int64OfUint64 uint64OfInt64
    split <;> omega
  simp [this]

/-- Helper: the version-string encoding is injective on `int64`-representable
timestamps. -/
theorem timestampToVersionString_inj (t1 t2 : Int)
    (h1 : -(2 ^ 63) ≤ t1) (h2 : t1 < 2 ^ 63)
    (h3 : -(2 ^ 63) ≤ t2) (h4 : t2 < 2 ^ 63)
    (hne : t1 ≠ t2) : timestampToVersionString t1 ≠ timestampToVersionString t2 := by
  intro heq
  have r1 := versionString_roundtrip_aux t1 h1 h2
  have r2 := versionString_roundtrip_aux t2 h3 h4
  rw [heq, r2] at r1
  exact hne (Option.some.inj r1).symm

/-! ### Persisted rows and database state

The four tables of the schema (`subscriptions`, `cells_subscriptions`,
`identification_service_areas`, `cells_identification_service_areas`),
one row structure each.  The `updated_at` column of the two cell tables is
never read by any operation of the claims and is omitted from the rows.
-/

/-- A row of the `subscriptions` table. -/
structure SubscriptionRow where
  id : String
  owner : String
  url : String
  notificationIndex : Int
  beginsAt : Option Int
  expiresAt : Option Int
  updatedAt : Int
deriving DecidableEq, Repr

/-- A row of the `cells_subscriptions` table; primary key `(cellId, subscriptionId)`. -/
structure CellSubscriptionRow where
  cellId : Int
  cellLevel : Int
  subscriptionId : String
deriving DecidableEq, Repr

/-- A row of the `identification_service_areas` table. -/
structure IdentificationServiceAreaRow where
  id : String
  owner : String
  url : String
  startsAt : Int
  endsAt : Int
  updatedAt : Int
deriving DecidableEq, Repr

/-- A row of the `cells_identification_service_areas` table;
primary key `(cellId, isaId)`. -/
structure CellISARow where
  cellId : Int
  cellLevel : Int
  isaId : String
deriving DecidableEq, Repr

/-- The persisted state: the four tables. -/
structure DBState where
  subscriptions : List SubscriptionRow
  cellsSubscriptions : List CellSubscriptionRow
  isas : List IdentificationServiceAreaRow
  cellsIsas : List CellISARow
deriving DecidableEq, Repr

/-- The wire tuple built by `subscriberRow.toProtobuf`: the callback URL and
one `SubscriptionState` carrying the subscription id and its notification index. -/
structure SubscriberToNotify where
  url : String
  subscriptionId : String
  notificationIndex : Int
deriving DecidableEq, Repr

/-! ### DeleteIdentificationServiceArea (repository, ISA delete path)

Embeds the three statements of `Store.DeleteIdentificationServiceArea`:
the affected-cells/subscriptions LEFT JOIN, the owner-checked
`DELETE ... RETURNING`, and the `getSubscriptionDetailsForAffectedCells`
SELECT, with SQL operator precedence (`AND` binds tighter than `OR`) and
SQL NULL-comparison semantics (a comparison against NULL is not satisfied).
-/

/-- `SELECT DISTINCT cell_id, subscription_id FROM cells_subscriptions`. -/
def distinctCellSubscriptionPairs (tbl : List CellSubscriptionRow) : List (Int × String) :=
  (tbl.map (fun r => (r.cellId, r.subscriptionId))).dedup

/-- Scans a list of nullable column values; a NULL scanned into a Go string
is an error, surfaced as `none`. -/
def allSome : List (Option α) → Option (List α)
  | [] => some []
  | none :: _ => none
  | some a :: rest => (allSome rest).map (fun l => a :: l)

/-- The `getAffectedCellsAndSubscriptions` query: the ISA's index rows
LEFT JOINed against the distinct `(cell_id, subscription_id)` pairs of
`cells_subscriptions` on equal `cell_id`; an ISA cell with no matching
subscription produces a row with a NULL `subscription_id`. -/
def affectedCellsAndSubscriptions (id : String) (st : DBState) : List (Option String) :=
  (st.cellsIsas.filter (fun r => decide (r.isaId = id))).flatMap (fun ci =>
    let ms := (distinctCellSubscriptionPairs st.cellsSubscriptions).filter
      (fun p => decide (p.1 = ci.cellId))
    if ms.isEmpty then [none] else ms.map (fun p => some p.2))

/-- The WHERE clause of `getSubscriptionDetailsForAffectedCells` as the SQL
parser reads it.  The source text is
`id = ANY($1) AND owner != $2 AND begins_at IS NULL OR
 transaction_timestamp() >= begins_at AND expires_at IS NULL OR
 transaction_timestamp() <= expires_at`,
and since `AND` binds tighter than `OR` this groups as three disjuncts. -/
def affectedSubscriberPred (subIds : List String) (isaOwner : String) (now : Int)
    (s : SubscriptionRow) : Bool :=
  (decide (s.id ∈ subIds) && !(s.owner == isaOwner) && (s.beginsAt == none))
    || ((match s.beginsAt with | some b => decide (b ≤ now) | none => false)
          && (s.expiresAt == none))
    || (match s.expiresAt with | some e => decide (now ≤ e) | none => false)

/-- `Store.DeleteIdentificationServiceArea`.  On the success path: collect the
affected subscription ids (erroring when a NULL id is scanned), delete the ISA
row matching id and owner (when the scan of `DELETE ... RETURNING` fails the
error is dropped by the source, the transaction is rolled back by the
`tx.Rollback()` inside the dropped `multierr.Combine`, and every later
statement on the transaction fails; that path surfaces as `Err.internal`),
select the subscriber details, and commit.  The cascade of
`cells_identification_service_areas` rows follows the deleted ISA row;
the `subscriptions` table is only read, never written. -/
def deleteISA (id owner : String) (now : Int) (st : DBState) :
    Except Err (IdentificationServiceAreaRow × List SubscriberToNotify × DBState) :=
  match allSome (affectedCellsAndSubscriptions id st) with
  | none => .error .internal
  | some subIds =>
    match st.isas.find? (fun r => decide (r.id = id) && decide (r.owner = owner)) with
    | none => .error .internal
    | some isar =>
      let affected := st.subscriptions.filter (affectedSubscriberPred subIds owner now)
      .ok (isar,
           affected.map (fun s => ⟨s.url, s.id, s.notificationIndex⟩),
           { st with
             isas := st.isas.filter (fun r => !(decide (r.id = id) && decide (r.owner = owner))),
             cellsIsas := st.cellsIsas.filter (fun r => !(decide (r.isaId = id))) })

/-! ### SearchSubscriptions

Embeds the `subscriptionsInCellsQuery` of `Store.SearchSubscriptions`: the
`subscriptions` table LEFT JOINed against the DISTINCT subscription ids
having an index row in one of the queried cells, filtered on the owner.
A LEFT JOIN keeps every left row: a subscription without any matching index
row still produces one output row (with NULLs on the right, none of whose
columns are selected). -/
def searchSubscriptions (cells : List Int) (owner : String) (st : DBState) :
    Except Err (List SubscriptionRow) :=
  if cells.isEmpty then .error .badRequest
  else
    let matchingIds :=
      ((st.cellsSubscriptions.filter (fun r => decide (r.cellId ∈ cells))).map
        (fun r => r.subscriptionId)).dedup
    let joined := st.subscriptions.flatMap (fun s =>
      let ms := matchingIds.filter (fun i => decide (i = s.id))
      if ms.isEmpty then [s] else ms.map (fun _ => s))
    .ok (joined.filter (fun s => decide (s.owner = owner)))

/-! ### The subscription entity and pushSubscription

`models.Subscription` as used by the repository: the seven scanned columns
plus the cell union (each cell carries its id and level). -/

/-- `models.Subscription`. -/
structure Subscription where
  id : String
  owner : String
  url : String
  notificationIndex : Int
  startTime : Option Int
  endTime : Option Int
  updatedAt : Option Int
  cells : List (Int × Int)
deriving DecidableEq, Repr

/-- The entity scanned back from a `subscriptions` row
(`fetchSubscriptions` reads the seven columns; cells are not fetched). -/
def subOfRow (r : SubscriptionRow) : Subscription :=
  ⟨r.id, r.owner, r.url, r.notificationIndex, r.beginsAt, r.expiresAt, some r.updatedAt, []⟩

/-- `Subscription.Version()`: empty for an unsaved entity, otherwise the
base-32 string of `updated_at` (`timestampToVersionString`). -/
def subVersion (s : Subscription) : String :=
  match s.updatedAt with
  | none => ""
  | some t => timestampToVersionString t

/-- Modelled from the spec: `models.Subscription.Apply` is not under the
sources; per the spec every non-empty overlay field overwrites the receiver
except `id` and `owner`, which are never overlaid. -/
def subApply (old ov : Subscription) : Subscription :=
  { id := old.id
    owner := old.owner
    url := if ov.url ≠ "" then ov.url else old.url
    notificationIndex :=
      if ov.notificationIndex ≠ 0 then ov.notificationIndex else old.notificationIndex
    startTime := if ov.startTime.isSome then ov.startTime else old.startTime
    endTime := if ov.endTime.isSome then ov.endTime else old.endTime
    updatedAt := if ov.updatedAt.isSome then ov.updatedAt else old.updatedAt
    cells := if ov.cells ≠ [] then ov.cells else old.cells }

/-- UPSERT into `subscriptions` keyed on the `id` primary key. -/
def upsertSubscriptionRow (nr : SubscriptionRow) (tbl : List SubscriptionRow) :
    List SubscriptionRow :=
  if tbl.any (fun r => decide (r.id = nr.id)) then
    tbl.map (fun r => if decide (r.id = nr.id) then nr else r)
  else tbl ++ [nr]

/-- UPSERT into `cells_subscriptions` keyed on the `(cell_id, subscription_id)`
primary key. -/
def upsertCellSubscription (nr : CellSubscriptionRow) (tbl : List CellSubscriptionRow) :
    List CellSubscriptionRow :=
  if tbl.any (fun r => decide (r.cellId = nr.cellId) && decide (r.subscriptionId = nr.subscriptionId)) then
    tbl.map (fun r =>
      if decide (r.cellId = nr.cellId) && decide (r.subscriptionId = nr.subscriptionId) then nr else r)
  else tbl ++ [nr]

/-- The per-cell UPSERT loop of `pushSubscription`. -/
def pushSubscriptionCells (sid : String) (cells : List (Int × Int))
    (tbl : List CellSubscriptionRow) : List CellSubscriptionRow :=
  cells.foldl (fun t c => upsertCellSubscription ⟨c.1, c.2, sid⟩ t) tbl

/-- The `deleteLeftOverCellsForSubscriptionQuery` sweep of `pushSubscription`:
`DELETE FROM cells_subscriptions WHERE cell_id != ALL($1) AND subscription_id = $2`. -/
def sweepLeftoverCells (sid : String) (cids : List Int)
    (tbl : List CellSubscriptionRow) : List CellSubscriptionRow :=
  tbl.filter (fun r => !(decide (r.cellId ∉ cids) && decide (r.subscriptionId = sid)))

/-- `Store.pushSubscription`: upsert the entity row (the server assigns
`updated_at := transaction_timestamp()`), reattach the cells to the returned
entity, upsert one index row per cell, then sweep the leftover index rows. -/
def pushSubscription (s : Subscription) (now : Int) (st : DBState) :
    Subscription × DBState :=
  let row : SubscriptionRow :=
    ⟨s.id, s.owner, s.url, s.notificationIndex, s.startTime, s.endTime, now⟩
  let subs := upsertSubscriptionRow row st.subscriptions
  let afterUpsert := pushSubscriptionCells s.id s.cells st.cellsSubscriptions
  let afterSweep := sweepLeftoverCells s.id (s.cells.map (fun c => c.1)) afterUpsert
  ({ s with updatedAt := some now },
   { st with subscriptions := subs, cellsSubscriptions := afterSweep })

/-- `Store.InsertSubscription`: fetch by id; an existing row is
`AlreadyExists`; otherwise push.  An error leaves the persisted state
unchanged (the transaction is never committed). -/
def insertSubscription (s : Subscription) (now : Int) (st : DBState) :
    Except Err Subscription × DBState :=
  match st.subscriptions.find? (fun r => decide (r.id = s.id)) with
  | some _ => (.error .alreadyExists, st)
  | none =>
    let p := pushSubscription s now st
    (.ok p.1, p.2)

/-- `Store.UpdateSubscription`: fetch by id and owner (`NotFound` when
absent), compare the caller's version against the persisted entity's
(`VersionMismatch` when different), then push the merge of the caller's
payload over the persisted entity. -/
def updateSubscription (s : Subscription) (now : Int) (st : DBState) :
    Except Err Subscription × DBState :=
  match st.subscriptions.find? (fun r => decide (r.id = s.id) && decide (r.owner = s.owner)) with
  | none => (.error .notFound, st)
  | some oldRow =>
    if subVersion s ≠ subVersion (subOfRow oldRow) then (.error .versionMismatch, st)
    else
      let p := pushSubscription (subApply (subOfRow oldRow) s) now st
      (.ok p.1, p.2)

/-! ### Transaction/rollback control flow of InsertSubscription

The rollback-discipline model of the newest `Store.InsertSubscription`:
each primitive step's outcome is a parameter, and the boolean records
whether `tx.Rollback()` ran before the function returned. -/

/-- Outcome of the initial `fetchSubscriptionByID`. -/
inductive FetchOutcome where
  | noRows
  | failure
  | found
deriving DecidableEq, Repr

/-- The branch structure of `Store.InsertSubscription`: the fetch-error and
already-exists branches return `multierr.Combine(err, tx.Rollback())`; the
`pushSubscription` error branch returns the error alone, without rolling
back; commit failure returns the commit error. -/
def insertSubscriptionFlow (fetch : FetchOutcome) (push : Except Err Subscription)
    (commit : Except Err Unit) : Except Err Subscription × Bool :=
  match fetch with
  | .failure => (.error .internal, true)
  | .found => (.error .alreadyExists, true)
  | .noRows =>
    match push with
    | .error e => (.error e, false)
    | .ok s =>
      match commit with
      | .error e => (.error e, false)
      | .ok _ => (.ok s, false)

/-! ### The ISA entity model and its Apply -/

/-- `models.IdentificationServiceArea`.  Pointer-typed Go fields become
`Option`; the cell union is `Option` as well because `Apply` distinguishes a
nil cell slice from a present one.  Altitudes are carried opaquely. -/
structure IdentificationServiceArea where
  id : String
  url : String
  owner : String
  cells : Option (List Int)
  startTime : Option Int
  endTime : Option Int
  updatedAt : Option Int
  altitudeHi : Option Float
  altitudeLo : Option Float

/-- `IdentificationServiceArea.Apply`: copy the receiver, then overwrite with
every set field of the overlay — the `id` and `owner` fields have no
overwrite branch. -/
def isaApply (s i2 : IdentificationServiceArea) : IdentificationServiceArea :=
  { id := s.id
    url := if i2.url ≠ "" then i2.url else s.url
    owner := s.owner
    cells := if i2.cells.isSome then i2.cells else s.cells
    startTime := if i2.startTime.isSome then i2.startTime else s.startTime
    endTime := if i2.endTime.isSome then i2.endTime else s.endTime
    updatedAt := if i2.updatedAt.isSome then i2.updatedAt else s.updatedAt
    altitudeHi := if i2.altitudeHi.isSome then i2.altitudeHi else s.altitudeHi
    altitudeLo := if i2.altitudeLo.isSome then i2.altitudeLo else s.altitudeLo }

/-! ### Wire versions -/

/-- The `Version` field built by `identificationServiceAreaRow.toProtobuf`:
`strconv.FormatInt(isar.updatedAt.UnixNano(), 10)`. -/
def isaRowWireVersion (updatedAtNanos : Int) : String :=
  formatInt10 updatedAtNanos

/-- The `Version` field built by `subscriptionsRow.toProtobuf`:
`timestampToVersionString(sr.updatedAt)`. -/
def subscriptionRowWireVersion (updatedAtNanos : Int) : String :=
  timestampToVersionString updatedAtNanos

/-! ### Geo coverer area policy

`maxAllowedSqMi`, `sqMiEarth` and `maxLoopArea()` from the geo package,
over the reals.  Go evaluates `sqMiEarth / 4. * math.Pi` left to right as
`(sqMiEarth / 4) * π`. -/

/-- `maxAllowedSqMi` from the source. -/
noncomputable def maxAllowedSqMi : ℝ := 1000

/-- `sqMiEarth` from the source (rough square miles of earth). -/
noncomputable def sqMiEarth : ℝ := 197000000

/-- `scalingFactor` as the source computes it: `sqMiEarth / 4. * math.Pi`. -/
noncomputable def scalingFactor : ℝ := sqMiEarth / 4 * Real.pi

/-- `maxLoopArea()` from the source: `maxAllowedSqMi / scalingFactor`. -/
noncomputable def maxLoopArea : ℝ := maxAllowedSqMi / scalingFactor

/-- Modelled from the spec: the spec's formula for the same bound,
`maxAllowedSqMi / (sqMiEarth / (4π))` — the unit-sphere area corresponding
to 1000 square miles.  Kept separate for comparison with `maxLoopArea`. -/
noncomputable def specMaxLoopArea : ℝ := maxAllowedSqMi / (sqMiEarth / (4 * Real.pi))

/-- Outcomes of `Covering`. -/
inductive CoveringOutcome where
  | badCoordSet
  | areaTooLarge
  | cover
deriving DecidableEq, Repr

open Classical in
/-- The area policy of `Covering(loop)`: reject a non-positive area as
`errBadCoordSet`, reject an area above `maxLoopArea()` as `errAreaTooLarge`,
otherwise return the region coverer's cover. -/
noncomputable def coveringOutcome (loopArea : ℝ) : CoveringOutcome :=
  if loopArea ≤ 0 then .badCoordSet
  else if loopArea > maxLoopArea then .areaTooLarge
  else .cover

/-! ### Cell-index lemmas -/

/-- `cells_subscriptions` carries a row joining cell `c` to subscription `sid`. -/
def hasCellRow (tbl : List CellSubscriptionRow) (c : Int) (sid : String) : Prop :=
  ∃ r ∈ tbl, r.cellId = c ∧ r.subscriptionId = sid

instance (tbl : List CellSubscriptionRow) (c : Int) (sid : String) :
    Decidable (hasCellRow tbl c sid) :=
  List.decidableBEx _ tbl

theorem hasCellRow_upsert (nr : CellSubscriptionRow) (tbl : List CellSubscriptionRow)
    (c : Int) (sid : String) :
    hasCellRow (upsertCellSubscription nr tbl) c sid ↔
      hasCellRow tbl c sid ∨ (c = nr.cellId ∧ sid = nr.subscriptionId) := by
  unfold upsertCellSubscription hasCellRow
  split
  next hany =>
    constructor
    · rintro ⟨r, hr, hc, hs⟩
      rcases List.mem_map.1 hr with ⟨r0, hr0, hrep⟩
      by_cases hkey : r0.cellId = nr.cellId ∧ r0.subscriptionId = nr.subscriptionId
      · rw [if_pos (by simp [hkey.1, hkey.2])] at hrep
        right
        rw [← hrep] at hc hs
        exact ⟨hc.symm, hs.symm⟩
      · rw [if_neg (by simpa [Decidable.not_and_iff_or_not] using hkey)] at hrep
        left
        exact ⟨r0, hr0, by rw [hrep]; exact hc, by rw [hrep]; exact hs⟩
    · rintro (⟨r, hr, hc, hs⟩ | ⟨hcc, hss⟩)
      · by_cases hkey : r.cellId = nr.cellId ∧ r.subscriptionId = nr.subscriptionId
        · refine ⟨nr, List.mem_map.2 ⟨r, hr, by rw [if_pos (by simp [hkey.1, hkey.2])]⟩, ?_, ?_⟩
          · rw [← hkey.1]; exact hc
          · rw [← hkey.2]; exact hs
        · exact ⟨r, List.mem_map.2 ⟨r, hr,
            by rw [if_neg (by simpa [Decidable.not_and_iff_or_not] using hkey)]⟩, hc, hs⟩
      · rcases List.any_eq_true.1 hany with ⟨r0, hr0, hp⟩
        simp only [Bool.and_eq_true, decide_eq_true_eq] at hp
        exact ⟨nr, List.mem_map.2 ⟨r0, hr0, by rw [if_pos (by simp [hp.1, hp.2])]⟩,
          hcc.symm, hss.symm⟩
  next hany =>
    constructor
    · rintro ⟨r, hr, hc, hs⟩
      rcases List.mem_append.1 hr with h | h
      · exact Or.inl ⟨r, h, hc, hs⟩
      · simp only [List.mem_singleton] at h
        subst h
        exact Or.inr ⟨hc.symm, hs.symm⟩
    · rintro (⟨r, hr, hc, hs⟩ | ⟨hcc, hss⟩)
      · exact ⟨r, List.mem_append.2 (Or.inl hr), hc, hs⟩
      · exact ⟨nr, List.mem_append.2 (Or.inr (by simp)), hcc.symm, hss.symm⟩

theorem hasCellRow_pushCells (sid : String) (cells : List (Int × Int))
    (tbl : List CellSubscriptionRow) (c : Int) (s : String) :
    hasCellRow (pushSubscriptionCells sid cells tbl) c s ↔
      hasCellRow tbl c s ∨ (s = sid ∧ c ∈ cells.map (fun x => x.1)) := by
  induction cells generalizing tbl with
  | nil => simp [pushSubscriptionCells]
  | cons cl rest ih =>
    show hasCellRow (pushSubscriptionCells sid rest (upsertCellSubscription ⟨cl.1, cl.2, sid⟩ tbl)) c s ↔ _
    rw [ih, hasCellRow_upsert]
    simp only [List.map_cons, List.mem_cons]
    constructor
    · rintro ((h | ⟨hc, hs⟩) | ⟨hs, hc⟩)
      · exact Or.inl h
      · exact Or.inr ⟨hs, Or.inl hc⟩
      · exact Or.inr ⟨hs, Or.inr hc⟩
    · rintro (h | ⟨hs, hc | hc⟩)
      · exact Or.inl (Or.inl h)
      · exact Or.inl (Or.inr ⟨hc, hs⟩)
      · exact Or.inr ⟨hs, hc⟩

theorem hasCellRow_sweep (sid : String) (cids : List Int) (tbl : List CellSubscriptionRow)
    (c : Int) (s : String) :
    hasCellRow (sweepLeftoverCells sid cids tbl) c s ↔
      hasCellRow tbl c s ∧ (s ≠ sid ∨ c ∈ cids) := by
  unfold sweepLeftoverCells hasCellRow
  constructor
  · rintro ⟨r, hr, hc, hs⟩
    have hmem := List.mem_filter.1 hr
    refine ⟨⟨r, hmem.1, hc, hs⟩, ?_⟩
    have hp := hmem.2
    simp only [Bool.not_eq_eq_eq_not, Bool.not_true, Bool.and_eq_false_iff,
      decide_eq_false_iff_not, not_not] at hp
    rcases hp with h | h
    · exact Or.inr (hc ▸ h)
    · exact Or.inl (fun hss => h (by rw [hs, hss]))
  · rintro ⟨⟨r, hr, hc, hs⟩, hside⟩
    refine ⟨r, List.mem_filter.2 ⟨hr, ?_⟩, hc, hs⟩
    simp only [Bool.not_eq_eq_eq_not, Bool.not_true, Bool.and_eq_false_iff,
      decide_eq_false_iff_not, not_not]
    rcases hside with h | h
    · exact Or.inr (fun hss => h (by rw [← hs, hss]))
    · exact Or.inl (hc ▸ h)

theorem hasCellRow_pushSubscription (s : Subscription) (now : Int) (st : DBState) (c : Int) :
    hasCellRow (pushSubscription s now st).2.cellsSubscriptions c s.id ↔
      c ∈ s.cells.map (fun x => x.1) := by
  show hasCellRow (sweepLeftoverCells s.id (s.cells.map (fun x => x.1))
    (pushSubscriptionCells s.id s.cells st.cellsSubscriptions)) c s.id ↔ _
  rw [hasCellRow_sweep, hasCellRow_pushCells]
  constructor
  · rintro ⟨h1, h2 | h2⟩
    · exact absurd rfl h2
    · exact h2
  · intro hc
    exact ⟨Or.inr ⟨rfl, hc⟩, Or.inr hc⟩

/-! ### Concrete states for the claim checks -/

/-- One cross-owner subscription on cell 42, one ISA of owner A on cell 42. -/
def stC1 : DBState :=
  { subscriptions := [⟨"sB", "B", "uB", 0, none, none, 5⟩]
    cellsSubscriptions := [⟨42, 13, "sB"⟩]
    isas := [⟨"i1", "A", "ui", 0, 100, 5⟩]
    cellsIsas := [⟨42, 13, "i1"⟩] }

/-- The state after `deleteISA "i1" "A"` on `stC1`. -/
def stC1After : DBState :=
  { subscriptions := [⟨"sB", "B", "uB", 0, none, none, 5⟩]
    cellsSubscriptions := [⟨42, 13, "sB"⟩]
    isas := []
    cellsIsas := [] }

/-- A subscription owned by A itself, within its time window, on cell 42,
and an ISA of the same owner A on cell 42. -/
def stC2 : DBState :=
  { subscriptions := [⟨"sA", "A", "uA", 0, some 0, some 100, 5⟩]
    cellsSubscriptions := [⟨42, 13, "sA"⟩]
    isas := [⟨"i1", "A", "ui", 0, 100, 5⟩]
    cellsIsas := [⟨42, 13, "i1"⟩] }

/-- The state after `deleteISA "i1" "A"` on `stC2`. -/
def stC2After : DBState :=
  { subscriptions := [⟨"sA", "A", "uA", 0, some 0, some 100, 5⟩]
    cellsSubscriptions := [⟨42, 13, "sA"⟩]
    isas := []
    cellsIsas := [] }

/-- A subscription of owner A indexed only under cell 1. -/
def stC7 : DBState :=
  { subscriptions := [⟨"s1", "A", "u1", 0, none, none, 5⟩]
    cellsSubscriptions := [⟨1, 13, "s1"⟩]
    isas := []
    cellsIsas := [] }

/-- A fresh subscription covering cells 42 and 84. -/
def demoSub : Subscription := ⟨"s1", "A", "u", 0, none, none, none, [(42, 13), (84, 13)]⟩

/-- The empty database. -/
def emptyDB : DBState := ⟨[], [], [], []⟩

/-- The entity returned by inserting `demoSub` into `emptyDB` at time 10. -/
def demoOut : Subscription := ⟨"s1", "A", "u", 0, none, none, some 10, [(42, 13), (84, 13)]⟩

/-- The state after inserting `demoSub` into `emptyDB` at time 10. -/
def demoDB2 : DBState :=
  ⟨[⟨"s1", "A", "u", 0, none, none, 10⟩], [⟨42, 13, "s1"⟩, ⟨84, 13, "s1"⟩], [], []⟩

/-- One persisted subscription with `updated_at = 5`. -/
def stC5 : DBState :=
  { subscriptions := [⟨"s1", "A", "u", 0, none, none, 5⟩]
    cellsSubscriptions := []
    isas := []
    cellsIsas := [] }

/-- An update payload carrying the current version of the row in `stC5`. -/
def subOk : Subscription := ⟨"s1", "A", "", 0, none, none, some 5, []⟩

/-- An update payload carrying a version derived from a different timestamp. -/
def subBad : Subscription := ⟨"s1", "A", "", 0, none, none, some 7, []⟩

/-! ### Claims -/

/-- C1 counterexample: deleting ISA `i1` (owner A, cell 42) over `stC1`, where
subscription `sB` (owner B, cell 42, `notification_index = 0`) is affected,
returns the subscriber tuple with `notification_index = 0` — the stored,
not-incremented value — and leaves the `subscriptions` table untouched: no
row ends up with `notification_index = 1` and no `updated_at` changes, so an
ISA mutation does not increment the affected subscription's counter as the
claim states. -/
theorem deleteISA_no_increment_cex :
    deleteISA "i1" "A" 50 stC1 =
      .ok (⟨"i1", "A", "ui", 0, 100, 5⟩, [⟨"uB", "sB", 0⟩], stC1After) ∧
    stC1After.subscriptions = stC1.subscriptions ∧
    ¬ ∃ r ∈ stC1After.subscriptions, r.id = "sB" ∧ r.notificationIndex = 1 :=
  ⟨rfl, rfl, by decide⟩

/-- C1 (amended): every subscriber tuple returned by
`DeleteIdentificationServiceArea` carries the notification index currently
stored for that subscription, and the `subscriptions` table — notification
indexes and `updated_at` timestamps included — is unchanged by the
operation. -/
theorem deleteISA_subscriptions_unchanged
    (id owner : String) (now : Int) (st : DBState)
    (isa : IdentificationServiceAreaRow) (subs : List SubscriberToNotify) (st2 : DBState)
    (h : deleteISA id owner now st = .ok (isa, subs, st2)) :
    st2.subscriptions = st.subscriptions ∧
    ∀ sub ∈ subs, ∃ r ∈ st.subscriptions,
      r.id = sub.subscriptionId ∧ r.url = sub.url ∧
      sub.notificationIndex = r.notificationIndex := by
  unfold deleteISA at h
  split at h
  · simp at h
  · split at h
    · simp at h
    · simp only [Except.ok.injEq, Prod.mk.injEq] at h
      obtain ⟨h1, h2, h3⟩ := h
      constructor
      · rw [← h3]
      · intro sub hsub
        rw [← h2] at hsub
        rcases List.mem_map.1 hsub with ⟨r, hr, hrep⟩
        subst hrep
        exact ⟨r, List.mem_of_mem_filter hr, rfl, rfl, rfl⟩

/-- C1 witness: the amended statement at the concrete `stC1` scenario. -/
theorem deleteISA_subscriptions_unchanged_witness :
    stC1After.subscriptions = stC1.subscriptions ∧
    ∀ sub ∈ [(⟨"uB", "sB", 0⟩ : SubscriberToNotify)], ∃ r ∈ stC1.subscriptions,
      r.id = sub.subscriptionId ∧ r.url = sub.url ∧
      sub.notificationIndex = r.notificationIndex :=
  deleteISA_subscriptions_unchanged "i1" "A" 50 stC1
    ⟨"i1", "A", "ui", 0, 100, 5⟩ [⟨"uB", "sB", 0⟩] stC1After rfl

/-- C2: because `AND` binds tighter than `OR`, the affected-subscribers WHERE
clause degenerates into three disjuncts and its third one
(`transaction_timestamp() <= expires_at`) selects rows regardless of owner:
deleting ISA `i1` owned by A returns subscription `sA`, which is owned by A
itself — an ISA mutation by owner O does notify a subscription of owner O. -/
theorem deleteISA_notifies_own_subscription :
    deleteISA "i1" "A" 50 stC2 =
      .ok (⟨"i1", "A", "ui", 0, 100, 5⟩, [⟨"uA", "sA", 0⟩], stC2After) ∧
    ∃ r ∈ stC2.subscriptions, r.id = "sA" ∧ r.owner = "A" :=
  ⟨rfl, by decide⟩

/-- C3: after `pushSubscription` — and hence after every successful
`InsertSubscription` and `UpdateSubscription`, both of which route through
it — the `cells_subscriptions` rows carrying the subscription's id are
exactly its declared cells: each declared cell has a row and every other row
of this subscription has been swept away in the same transaction. -/
theorem subscription_cell_index_invariant :
    (∀ s now st c, hasCellRow (pushSubscription s now st).2.cellsSubscriptions c s.id ↔
        c ∈ s.cells.map (fun x => x.1))
    ∧ (∀ s now st out st2, insertSubscription s now st = (.ok out, st2) →
        ∀ c, hasCellRow st2.cellsSubscriptions c out.id ↔ c ∈ out.cells.map (fun x => x.1))
    ∧ (∀ s now st out st2, updateSubscription s now st = (.ok out, st2) →
        ∀ c, hasCellRow st2.cellsSubscriptions c out.id ↔ c ∈ out.cells.map (fun x => x.1)) := by
  refine ⟨hasCellRow_pushSubscription, ?_, ?_⟩
  · intro s now st out st2 h c
    unfold insertSubscription at h
    split at h
    · simp at h
    · simp only [Prod.mk.injEq, Except.ok.injEq] at h
      obtain ⟨h1, h2⟩ := h
      rw [← h1, ← h2]
      exact hasCellRow_pushSubscription s now st c
  · intro s now st out st2 h c
    unfold updateSubscription at h
    split at h
    · simp at h
    · split at h
      · simp at h
      · simp only [Prod.mk.injEq, Except.ok.injEq] at h
        obtain ⟨h1, h2⟩ := h
        rw [← h1, ← h2]
        exact hasCellRow_pushSubscription _ now st c

/-- C3 witness: inserting `demoSub` (cells 42 and 84) into the empty store
leaves an index row for cell 42 under its id. -/
theorem subscription_cell_index_invariant_witness :
    hasCellRow demoDB2.cellsSubscriptions 42 "s1" :=
  (subscription_cell_index_invariant.2.1 demoSub 10 emptyDB demoOut demoDB2 rfl 42).mpr
    (by decide)

/-- C4: in `InsertSubscription` (newest revision), when `pushSubscription`
fails the error is returned directly and `tx.Rollback()` is never invoked —
the rollback flag of the flow model is `false` — contradicting the policy
that every error inside the transaction triggers a rollback before the error
is returned. -/
theorem insertSubscription_error_without_rollback (e : Err) (commit : Except Err Unit) :
    insertSubscriptionFlow .noRows (.error e) commit = (.error e, false) :=
  rfl

/-- C5: for an existing subscription row, an update carrying the version
derived from the row's current `updated_at` (the version returned by the
most recent successful mutation) succeeds, while an update carrying a
version derived from any other timestamp returns `VersionMismatch` and
returns the persisted state unchanged. -/
theorem updateSubscription_version_gate (st : DBState) (s : Subscription)
    (oldRow : SubscriptionRow) (now : Int)
    (hfind : st.subscriptions.find?
      (fun r => decide (r.id = s.id) && decide (r.owner = s.owner)) = some oldRow) :
    (subVersion s = timestampToVersionString oldRow.updatedAt →
      ∃ s2 st2, updateSubscription s now st = (.ok s2, st2))
    ∧ (∀ tOld : Int, s.updatedAt = some tOld →
        -(2 ^ 63) ≤ tOld → tOld < 2 ^ 63 →
        -(2 ^ 63) ≤ oldRow.updatedAt → oldRow.updatedAt < 2 ^ 63 →
        tOld ≠ oldRow.updatedAt →
        updateSubscription s now st = (.error .versionMismatch, st)) := by
  have heq : updateSubscription s now st =
      if subVersion s ≠ subVersion (subOfRow oldRow) then (Except.error Err.versionMismatch, st)
      else (Except.ok (pushSubscription (subApply (subOfRow oldRow) s) now st).1,
            (pushSubscription (subApply (subOfRow oldRow) s) now st).2) := by
    unfold updateSubscription
    rw [hfind]
  constructor
  · intro hv
    have hvv : subVersion s = subVersion (subOfRow oldRow) := by rw [hv]; rfl
    rw [heq, if_neg (not_not_intro hvv)]
    exact ⟨_, _, rfl⟩
  · intro tOld hup h1 h2 h3 h4 hne
    have hvne : subVersion s ≠ subVersion (subOfRow oldRow) := by
      have hvs : subVersion s = timestampToVersionString tOld := by
        simp [subVersion, hup]
      rw [hvs]
      show timestampToVersionString tOld ≠ timestampToVersionString oldRow.updatedAt
      exact timestampToVersionString_inj tOld oldRow.updatedAt h1 h2 h3 h4 hne
    rw [heq, if_pos hvne]

/-- C5 witness: over `stC5` (row `s1` with `updated_at = 5`), the update
carrying version of timestamp 5 succeeds and the update carrying the version
of timestamp 7 fails with `VersionMismatch`, leaving the state unchanged. -/
theorem updateSubscription_version_gate_witness :
    (∃ s2 st2, updateSubscription subOk 9 stC5 = (.ok s2, st2)) ∧
    updateSubscription subBad 9 stC5 = (.error .versionMismatch, stC5) :=
  ⟨(updateSubscription_version_gate stC5 subOk ⟨"s1", "A", "u", 0, none, none, 5⟩ 9 rfl).1 rfl,
   (updateSubscription_version_gate stC5 subBad ⟨"s1", "A", "u", 0, none, none, 5⟩ 9 rfl).2
     7 rfl (by decide) (by decide) (by decide) (by decide) (by decide)⟩

/-- C6: `identificationServiceAreaRow.toProtobuf` formats the wire version
with `strconv.FormatInt(updatedAt.UnixNano(), 10)` — decimal, not the
base-32 `timestampToVersionString` used for subscriptions: at
`updated_at = 100` ns the ISA wire version is `"100"` while the base-32
encoding of 100 is `"34"`. -/
theorem isa_wire_version_not_base32 :
    isaRowWireVersion 100 = "100" ∧
    subscriptionRowWireVersion 100 = "34" ∧
    isaRowWireVersion 100 ≠ subscriptionRowWireVersion 100 := by
  refine ⟨rfl, rfl, ?_⟩
  decide

/-- C7: `SearchSubscriptions` LEFT JOINs `subscriptions` against the
matching index rows, so a subscription of the queried owner with no index
row in any queried cell is still returned: over `stC7` (subscription `s1`
indexed only under cell 1), searching cell 2 for owner A returns `s1`
although none of its index rows matches the queried cells. -/
theorem searchSubscriptions_returns_nonoverlapping :
    searchSubscriptions [2] "A" stC7 = .ok [⟨"s1", "A", "u1", 0, none, none, 5⟩] ∧
    stC7.cellsSubscriptions.all (fun r => !(decide (r.cellId ∈ ([2] : List Int)))) = true :=
  ⟨rfl, by decide⟩

/-- C8: `IdentificationServiceArea.Apply` returns a copy of the receiver in
which every set field of the overlay replaces the receiver's field, while
the `id` and `owner` of the result always equal the receiver's, whatever the
overlay contains. -/
theorem isaApply_overlay_frame (s o : IdentificationServiceArea) :
    (isaApply s o).id = s.id ∧
    (isaApply s o).owner = s.owner ∧
    (isaApply s o).url = (if o.url ≠ "" then o.url else s.url) ∧
    (isaApply s o).cells = (if o.cells.isSome then o.cells else s.cells) ∧
    (isaApply s o).startTime = (if o.startTime.isSome then o.startTime else s.startTime) ∧
    (isaApply s o).endTime = (if o.endTime.isSome then o.endTime else s.endTime) ∧
    (isaApply s o).updatedAt = (if o.updatedAt.isSome then o.updatedAt else s.updatedAt) ∧
    (isaApply s o).altitudeHi = (if o.altitudeHi.isSome then o.altitudeHi else s.altitudeHi) ∧
    (isaApply s o).altitudeLo = (if o.altitudeLo.isSome then o.altitudeLo else s.altitudeLo) :=
  ⟨rfl, rfl, rfl, rfl, rfl, rfl, rfl, rfl, rfl⟩

/-- C9: the source computes `scalingFactor = sqMiEarth / 4. * math.Pi`,
which Go parses as `(sqMiEarth / 4) * π` rather than the spec's
`sqMiEarth / (4π)`; the resulting bound is smaller by a factor of `π²`, so
`Covering` rejects a loop of area `10⁻⁵` steradians with `AreaTooLarge`
although that area is below the spec's 1000-square-mile bound
`specMaxLoopArea`. -/
theorem covering_rejects_area_within_spec_bound :
    coveringOutcome (1 / 100000) = .areaTooLarge ∧
    (1 / 100000 : ℝ) ≤ specMaxLoopArea := by
  have hpi : (3 : ℝ) < Real.pi := Real.pi_gt_three
  have hpi0 : (0 : ℝ) < Real.pi := by linarith
  have hmax : maxLoopArea < 1 / 100000 := by
    unfold maxLoopArea scalingFactor maxAllowedSqMi sqMiEarth
    rw [div_lt_div_iff₀ (by positivity) (by norm_num)]
    nlinarith
  constructor
  · unfold coveringOutcome
    rw [if_neg (by norm_num), if_pos hmax]
  · unfold specMaxLoopArea maxAllowedSqMi sqMiEarth
    rw [div_le_div_iff₀ (by norm_num) (by positivity), one_mul,
      div_le_iff₀ (by positivity)]
    nlinarith

/-- C10: decoding inverts encoding: for every timestamp whose nanosecond
Unix epoch is `int64`-representable, `versionStringToTimestamp`
applied to `timestampToVersionString` recovers the exact `UnixNano` value. -/
theorem versionString_roundtrip (t : Int) (h1 : -(2 ^ 63) ≤ t) (h2 : t < 2 ^ 63) :
    versionStringToTimestamp (timestampToVersionString t) = some t :=
  versionString_roundtrip_aux t h1 h2

/-- C10 witness: the round trip at the concrete timestamp 1234567890. -/
theorem versionString_roundtrip_witness :
    -(2 ^ 63 : Int) ≤ 1234567890 ∧ (1234567890 : Int) < 2 ^ 63 ∧
      versionStringToTimestamp (timestampToVersionString 1234567890) = some 1234567890 :=
  ⟨by decide, by decide, versionString_roundtrip 1234567890 (by decide) (by decide)⟩

end InterUSS
